import Mathlib

/-!
Verification of the pydna agarose-gel electrophoresis simulation engine
against its specification.  The repository ships only a demonstration
notebook (`scripts/gel_example.ipynb`) that exercises the engine
(`pydna.gel`: `Gel`, `gen_sample`, `weight_standards`,
`weight_standard_sample`); the engine module itself is not among the
source files, so every component below is modelled from the
specification and from the concrete input/output pairs recorded in the
notebook.  Physical magnitudes are embedded as exact rationals (`ℚ`);
fragment lengths in base pairs as naturals.
-/

namespace Pydna

/-- Modelled from the spec (§7 Error Handling): the engine is missing from
the sources; the spec enumerates exactly these error kinds, raised
synchronously at the violated precondition. -/
inductive GelError where
  | dimensionMismatch
  | shapeMismatch
  | notFound
  | invalidParameter
  | emptyGel
deriving DecidableEq, Repr

/-- Modelled from the spec (§3 Fragment): a double-stranded DNA fragment
with a length in base pairs, a topology flag and a stored molar amount
(mol); mass is derived, never stored. -/
structure Fragment where
  length_bp : ℕ
  circular : Bool
  molar_amount : ℚ
deriving DecidableEq, Repr

/-- Modelled from the spec (§3): average mass contributed by one base
pair, g/mol.  The spec makes the exact empirical constants configuration,
not contract; this value reproduces the notebook round trips
(100 ng at 3000 bp ↔ 0.054 pmol). -/
def basePairMW : ℚ := 6179 / 10

/-- Modelled from the spec (§3): end-group mass correction for the two
free ends of a linear fragment, g/mol.  Circular fragments have no free
ends. -/
def endMW : ℚ := 3604 / 100

/-- Modelled from the spec (§3): deterministic molecular weight of a
fragment, a function of its length and topology only; the same formula is
used everywhere mass is derived. -/
def molecular_weight (length_bp : ℕ) (circular : Bool) : ℚ :=
  basePairMW * length_bp + (if circular then 0 else endMW)

/-- Mass of a fragment in nanograms, derived from the stored molar amount
through the molecular-weight relationship of the spec
(`mass = molar_amount × molecular_weight`), converted from grams. -/
def massNg (f : Fragment) : ℚ :=
  f.molar_amount * molecular_weight f.length_bp f.circular * 1000000000

/-- Modelled from the spec (§4.2): construct a linear fragment of the
given length carrying the given mass (nanograms), storing the molar
amount derived via the mass/molecular-weight relationship. -/
def mkFragment (length_bp : ℕ) (mass_ng : ℚ) : Fragment :=
  { length_bp := length_bp
    circular := false
    molar_amount := mass_ng * (1 / 1000000000) / molecular_weight length_bp false }

/-- Modelled from the spec (§4.2 `build_sample`): quantities are either
one mass per fragment (nanograms assumed when unitless) or one total mass
to distribute in proportion to length. -/
inductive QuantitySpec where
  | each (qs : List ℚ)
  | total (q : ℚ)

/-- Total length of a size list in base pairs, as a rational. -/
def totalBp (sizes : List ℕ) : ℚ :=
  (sizes.map fun s : ℕ => (s : ℚ)).sum

/-- Modelled from the spec (§4.2, the notebook's `gen_sample`):
per-fragment quantities are assigned directly after a shape check; a
single total mass is split across the fragments in proportion to their
lengths. -/
def gen_sample (sizes : List ℕ) (q : QuantitySpec) : Except GelError (List Fragment) :=
  match q with
  | .each qs =>
      if sizes.length = qs.length then
        .ok (List.zipWith mkFragment sizes qs)
      else
        .error .shapeMismatch
  | .total t =>
      .ok (sizes.map fun L => mkFragment L (t * L / totalBp sizes))

/-!  Migration model.  Modelled from the spec (§4.3): a pure function of
(length, agarose percent, field strength) whose exact constants are
configuration, subject to the mandated monotonicity properties. -/

/-- Modelled from the spec (§4.3): free-solution mobility scale constant
(cm/hr at unit field), configuration not contract. -/
def mu0 : ℚ := 30

/-- Modelled from the spec (§4.3): field-saturation coefficient giving
diminishing returns at high field strength, length dependent. -/
def fieldSat : ℚ := 1 / 100000

/-- Modelled from the spec (§4.3): sieving coefficient; higher agarose
percent slows migration, the more so the longer the fragment. -/
def sieve : ℚ := 1 / 4000

/-- Modelled from the spec (§4.3): migration rate (distance per unit
time) of a fragment of `length_bp` base pairs in a gel of `p` percent
agarose under field `E`; strictly decreasing in length and in agarose
percent, saturating in field strength. -/
def migration_rate (length_bp : ℕ) (p E : ℚ) : ℚ :=
  mu0 * E / ((1 + fieldSat * length_bp * E) * (1 + sieve * p * length_bp))

/-- Modelled from the spec (§4.5): distance travelled after elapsed time
`t`, the rate being constant for fixed conditions
(`distance = migration_rate × elapsed_time`). -/
def migration_distance (length_bp : ℕ) (p E t : ℚ) : ℚ :=
  migration_rate length_bp p E * t

/-!  Gel configuration and run control.  Modelled from the spec (§3, §4.5)
and the notebook's `Gel(samples, percentgel, electrfield)` /
`G.run(till_len, till_time, exposure)` interface. -/

/-- Modelled from the spec (§3 Gel Configuration): lanes of fragments
plus agarose percent (default 1.0), field strength (default 5.0 V/cm)
and the physical gel length; immutable once the run begins. -/
structure GelConfig where
  lanes : List (List Fragment)
  percentgel : ℚ
  electrfield : ℚ
  gel_len : ℚ
deriving DecidableEq, Repr

/-- Modelled from the spec (§4.5): run parameters; `till_len` is the
stopping fraction of the gel length, `till_time` an optional elapsed-time
bound, `exposure` the 0–1 saturation setting. -/
structure RunParams where
  till_len : ℚ
  till_time : Option ℚ
  exposure : ℚ
deriving DecidableEq, Repr

/-- Modelled from the spec (§4.5 / notebook): the defaults of
`run(till_len=0.75, till_time=None, exposure=0.5)`. -/
def defaultRunParams : RunParams :=
  { till_len := 3 / 4, till_time := none, exposure := 1 / 2 }

/-- All fragments of the gel, across lanes. -/
def allFragments (g : GelConfig) : List Fragment :=
  g.lanes.flatten

/-- Largest element of a list of rationals (`0` for the empty list);
used for the fastest migration rate and the brightest band peak. -/
def listMax : List ℚ → ℚ
  | [] => 0
  | a :: t => t.foldr max a

/-- Smallest element of a list of rationals (`0` for the empty list);
used for the weakest band peak across all lanes. -/
def listMin : List ℚ → ℚ
  | [] => 0
  | a :: t => t.foldr min a

/-- Migration rate of one fragment under the gel's conditions. -/
def fragmentRate (g : GelConfig) (f : Fragment) : ℚ :=
  migration_rate f.length_bp g.percentgel g.electrfield

/-- Rate of the fastest-migrating fragment in the lane set. -/
def maxRate (g : GelConfig) : ℚ :=
  listMax ((allFragments g).map (fragmentRate g))

/-- Modelled from the spec (§4.3 `time_to_reach`): elapsed time for the
fastest fragment to migrate `frac` of the gel length. -/
def time_to_reach (g : GelConfig) (frac : ℚ) : ℚ :=
  frac * g.gel_len / maxRate g

/-- Fraction of the gel length migrated by the fastest fragment after
elapsed time `t`. -/
def fractionAt (g : GelConfig) (t : ℚ) : ℚ :=
  maxRate g * t / g.gel_len

/-- Modelled from the spec (§4.5 and design note §9): the run stops at
whichever bound is reached first in simulated elapsed time — the time to
reach the `till_len` fraction, or `till_time` when supplied. -/
def stopTime (g : GelConfig) (p : RunParams) : ℚ :=
  match p.till_time with
  | none => time_to_reach g p.till_len
  | some T => min T (time_to_reach g p.till_len)

/-- Per-lane, per-fragment migration distances at the stop time. -/
def laneDistances (g : GelConfig) (p : RunParams) : List (List ℚ) :=
  g.lanes.map fun lane => lane.map fun f => fragmentRate g f * stopTime g p

/-- Result of a completed run: the simulated elapsed time and the final
fragment positions from which the intensity field is rendered. -/
structure RunOutput where
  time : ℚ
  distances : List (List ℚ)
deriving DecidableEq, Repr

/-- The elapsed-time bound is absent or non-negative. -/
def tillTimeNonneg (p : RunParams) : Prop :=
  ∀ T, p.till_time = some T → 0 ≤ T

/-- Modelled from the spec (§4.5, §7): `run` validates its parameters
synchronously — exposure in [0, 1], `till_len` in (0, 1], `till_time`
non-negative when supplied, at least one fragment loaded — and only then
produces its output; on failure it yields the specified error and no
output state. -/
def run (g : GelConfig) (p : RunParams) : Except GelError RunOutput :=
  if 0 ≤ p.exposure ∧ p.exposure ≤ 1 then
    if 0 < p.till_len ∧ p.till_len ≤ 1 then
      match p.till_time with
      | some T =>
          if T < 0 then .error .invalidParameter
          else if allFragments g = [] then .error .emptyGel
          else .ok { time := stopTime g p, distances := laneDistances g p }
      | none =>
          if allFragments g = [] then .error .emptyGel
          else .ok { time := stopTime g p, distances := laneDistances g p }
    else .error .invalidParameter
  else .error .invalidParameter

/-!  Band intensity model.  Modelled from the spec (§4.4): each fragment
becomes a Gaussian-like band centred at its migration distance, wider for
longer fragments, with area proportional to mass; exposure clips every
band to a saturation threshold between the brightest and the weakest
peak. -/

/-- Modelled from the spec (§4.4): base band width, configuration not
contract. -/
def widthBase : ℚ := 1 / 10

/-- Modelled from the spec (§4.4): band-width growth per base pair
(larger fragments diffuse into broader bands). -/
def widthPerBp : ℚ := 1 / 10000

/-- Band width of a fragment, strictly positive and increasing with
length. -/
def bandWidth (f : Fragment) : ℚ :=
  widthBase + widthPerBp * f.length_bp

/-- Modelled from the spec (§4.4, design note §9): the normalised bell
shape of a band, a rational approximation of the Gaussian
exp(-u²/2) by its truncated reciprocal Taylor expansion; even, equal to 1
at the centre, positive and at most 1 everywhere. -/
def kernel (u : ℚ) : ℚ :=
  1 / (1 + u ^ 2 / 2 + u ^ 4 / 8)

/-- Peak height of a band: mass spread over the band width, so that
broader bands of equal mass are fainter and the area under the curve is
proportional to the mass. -/
def bandPeak (f : Fragment) : ℚ :=
  massNg f / bandWidth f

/-- Modelled from the spec (§4.4): the raw (unclipped) intensity curve of
a fragment's band centred at migration distance `c`. -/
def bandCurve (f : Fragment) (c x : ℚ) : ℚ :=
  bandPeak f * kernel ((x - c) / bandWidth f)

/-- Peak heights of every band across all lanes. -/
def allPeaks (g : GelConfig) : List ℚ :=
  (allFragments g).map bandPeak

/-- Modelled from the spec (§4.4): the saturation threshold interpolates
with `exposure` between the brightest peak (exposure 0: nothing clips)
and the weakest peak across all lanes (exposure 1: every brighter band
saturates). -/
def saturationThreshold (g : GelConfig) (exposure : ℚ) : ℚ :=
  listMax (allPeaks g) - exposure * (listMax (allPeaks g) - listMin (allPeaks g))

/-- Modelled from the spec (§4.4): the displayed curve of a band, the raw
curve clipped to the saturation threshold. -/
def clippedCurve (g : GelConfig) (exposure : ℚ) (f : Fragment) (c x : ℚ) : ℚ :=
  min (bandCurve f c x) (saturationThreshold g exposure)

/-- Numerically integrated area under a band's displayed curve: a Riemann
sum of `2N + 1` samples spanning `R` band widths either side of the
centre. -/
def numericArea (g : GelConfig) (exposure : ℚ) (N : ℕ) (R : ℚ) (f : Fragment) (c : ℚ) : ℚ :=
  ∑ i ∈ Finset.range (2 * N + 1),
    clippedCurve g exposure f c (c + ((i : ℚ) - N) * (R * bandWidth f / N)) *
      (R * bandWidth f / N)

/-- The same Riemann sum applied to the normalised kernel alone: the
proportionality constant between band area and fragment mass, identical
for every fragment. -/
def gridConst (N : ℕ) (R : ℚ) : ℚ :=
  ∑ i ∈ Finset.range (2 * N + 1), kernel (((i : ℚ) - N) * R / N) * (R / N)

/-!  Weight standards.  Modelled from the spec (§3, §4.2) and the
notebook: a static read-only table of named ladders, each an ordered list
of fragment sizes (descending, ladder convention) with the mass fraction
of the total load carried by each fragment. -/

/-- Modelled from the spec (§3 Weight Standard Entry): sizes in bp
ordered by descending size, together with mass fractions summing to 1. -/
structure LadderEntry where
  sizes : List ℕ
  fractions : List ℚ
deriving DecidableEq, Repr

/-- Modelled from the spec and the notebook: the static
`weight_standards` dictionary with its four GeneRuler ladders.  The
`1kb_GeneRuler` entry reproduces the sizes and per-band masses printed in
the notebook (masses [30, 30, 70, 30, 30, 30, 70, 25, 25, 25, 60, 25,
25, 25] ng of a 500 ng load); for the other three ladders the notebook
records only the names, so their entries carry the named products' sizes
with uniform mass fractions. -/
def weight_standards : List (String × LadderEntry) :=
  [("Mix_GeneRuler",
    { sizes := [10000, 8000, 6000, 5000, 4000, 3500, 3000, 2500, 2000, 1500,
                1200, 1000, 900, 800, 700, 600, 500, 400, 300, 200, 100]
      fractions := List.replicate 21 (1 / 21) }),
   ("1kb+_GeneRuler",
    { sizes := [20000, 10000, 7000, 5000, 4000, 3000, 2000, 1500, 1000, 700,
                500, 400, 300, 200, 75]
      fractions := List.replicate 15 (1 / 15) }),
   ("High_Range_GeneRuler",
    { sizes := [48502, 24508, 20555, 17000, 15258, 13825, 12119, 10171]
      fractions := List.replicate 8 (1 / 8) }),
   ("1kb_GeneRuler",
    { sizes := [10000, 8000, 6000, 5000, 4000, 3500, 3000, 2500, 2000, 1500,
                1000, 750, 500, 250]
      fractions := [3/50, 3/50, 7/50, 3/50, 3/50, 3/50, 7/50, 1/20, 1/20,
                    1/20, 3/25, 1/20, 1/20, 1/20] })]

/-- Modelled from the spec (§4.2): the default total ladder load of
500 ng used when the quantity argument is omitted. -/
def defaultLadderMass : ℚ := 500

/-- Modelled from the spec (§4.2 `build_weight_standard_sample`, the
notebook's `weight_standard_sample`): look the name up in the static
table (NotFound when absent) and distribute the total mass according to
the entry's mass fractions, keeping the table's descending size order. -/
def weight_standard_sample (name : String) (total : ℚ) : Except GelError (List Fragment) :=
  match weight_standards.lookup name with
  | none => .error .notFound
  | some e => .ok (List.zipWith (fun sz fr => mkFragment sz (fr * total)) e.sizes e.fractions)

/-!  Helper lemmas. -/

lemma molecular_weight_linear_pos (L : ℕ) : 0 < molecular_weight L false := by
  unfold molecular_weight basePairMW endMW
  have h : (0 : ℚ) ≤ (6179 / 10) * L := by positivity
  norm_num
  linarith

lemma massNg_mkFragment (L : ℕ) (m : ℚ) : massNg (mkFragment L m) = m := by
  have h := molecular_weight_linear_pos L
  unfold massNg mkFragment
  field_simp
  ring

lemma bandWidth_pos (f : Fragment) : 0 < bandWidth f := by
  unfold bandWidth widthBase widthPerBp
  have h : (0 : ℚ) ≤ (1 / 10000) * f.length_bp := by positivity
  linarith

lemma kernelDenom_ge_one (u : ℚ) : 1 ≤ 1 + u ^ 2 / 2 + u ^ 4 / 8 := by
  have h2 : (0 : ℚ) ≤ u ^ 2 / 2 := by positivity
  have h4 : (0 : ℚ) ≤ u ^ 4 / 8 := by positivity
  linarith

lemma kernel_pos (u : ℚ) : 0 < kernel u := by
  unfold kernel
  have h := kernelDenom_ge_one u
  positivity

lemma kernel_le_one (u : ℚ) : kernel u ≤ 1 := by
  unfold kernel
  have h := kernelDenom_ge_one u
  rw [div_le_one (by linarith)]
  linarith

lemma kernel_zero : kernel 0 = 1 := by
  unfold kernel
  norm_num

lemma le_listMax {a : ℚ} : ∀ {l : List ℚ}, a ∈ l → a ≤ listMax l
  | [], h => absurd h (List.not_mem_nil a)
  | b :: t, h => by
    induction t generalizing b with
    | nil =>
      rcases List.mem_cons.mp h with h1 | h1
      · simp [listMax, h1]
      · exact absurd h1 (List.not_mem_nil a)
    | cons c t ih =>
      have hstep : listMax (b :: c :: t) = max c (listMax (b :: t)) := by
        simp [listMax, List.foldr]
      rw [hstep]
      rcases List.mem_cons.mp h with h1 | h1
      · exact le_max_of_le_right (ih b (h1 ▸ List.mem_cons_self b t))
      · rcases List.mem_cons.mp h1 with h2 | h2
        · exact le_max_of_le_left h2.le
        · exact le_max_of_le_right (ih b (List.mem_cons_of_mem b h2))

lemma listMin_le {a : ℚ} : ∀ {l : List ℚ}, a ∈ l → listMin l ≤ a
  | [], h => absurd h (List.not_mem_nil a)
  | b :: t, h => by
    induction t generalizing b with
    | nil =>
      rcases List.mem_cons.mp h with h1 | h1
      · simp [listMin, h1]
      · exact absurd h1 (List.not_mem_nil a)
    | cons c t ih =>
      have hstep : listMin (b :: c :: t) = min c (listMin (b :: t)) := by
        simp [listMin, List.foldr]
      rw [hstep]
      rcases List.mem_cons.mp h with h1 | h1
      · exact min_le_of_right_le (ih b (h1 ▸ List.mem_cons_self b t))
      · rcases List.mem_cons.mp h1 with h2 | h2
        · exact min_le_of_left_le h2.ge
        · exact min_le_of_right_le (ih b (List.mem_cons_of_mem b h2))

lemma bandPeak_nonneg {f : Fragment} (hm : 0 ≤ massNg f) : 0 ≤ bandPeak f := by
  unfold bandPeak
  exact div_nonneg hm (bandWidth_pos f).le

lemma bandCurve_le_peak {f : Fragment} (hm : 0 ≤ massNg f) (c x : ℚ) :
    bandCurve f c x ≤ bandPeak f := by
  unfold bandCurve
  calc bandPeak f * kernel ((x - c) / bandWidth f)
      ≤ bandPeak f * 1 :=
        mul_le_mul_of_nonneg_left (kernel_le_one _) (bandPeak_nonneg hm)
    _ = bandPeak f := mul_one _

lemma bandCurve_center (f : Fragment) (c : ℚ) : bandCurve f c c = bandPeak f := by
  unfold bandCurve
  rw [sub_self, zero_div, kernel_zero, mul_one]

lemma bandPeak_mem_allPeaks {g : GelConfig} {f : Fragment} (hf : f ∈ allFragments g) :
    bandPeak f ∈ allPeaks g :=
  List.mem_map_of_mem bandPeak hf

lemma clippedCurve_exposure_zero {g : GelConfig} {f : Fragment}
    (hf : f ∈ allFragments g) (hm : 0 ≤ massNg f) (c x : ℚ) :
    clippedCurve g 0 f c x = bandCurve f c x := by
  unfold clippedCurve saturationThreshold
  rw [zero_mul, sub_zero]
  exact min_eq_left ((bandCurve_le_peak hm c x).trans
    (le_listMax (bandPeak_mem_allPeaks hf)))

/-!  Migration-model monotonicity lemmas. -/

lemma fieldDenom_pos (L : ℕ) (E : ℚ) (hE : 0 ≤ E) : 0 < 1 + fieldSat * L * E := by
  have h : (0 : ℚ) ≤ fieldSat * L * E := by
    unfold fieldSat
    positivity
  linarith

lemma sieveDenom_pos (L : ℕ) (p : ℚ) (hp : 0 ≤ p) : 0 < 1 + sieve * p * L := by
  have h : (0 : ℚ) ≤ sieve * p * L := by
    unfold sieve
    positivity
  linarith

lemma migration_denom_pos (L : ℕ) (p E : ℚ) (hp : 0 ≤ p) (hE : 0 ≤ E) :
    0 < (1 + fieldSat * L * E) * (1 + sieve * p * L) :=
  mul_pos (fieldDenom_pos L E hE) (sieveDenom_pos L p hp)

lemma mu0_pos : (0 : ℚ) < mu0 := by
  unfold mu0
  norm_num

/-- C2: at equal agarose concentration and field strength, the migration
rate is strictly greater for the shorter of two fragment lengths, and
consequently after any equal positive elapsed time the shorter fragment
has migrated strictly farther. -/
theorem migration_rate_strict_anti_length (L1 L2 : ℕ) (p E t : ℚ)
    (hL : L1 < L2) (hp : 0 ≤ p) (hE : 0 < E) (ht : 0 < t) :
    migration_rate L2 p E < migration_rate L1 p E ∧
    migration_distance L2 p E t < migration_distance L1 p E t := by
  have hnum : 0 < mu0 * E := mul_pos mu0_pos hE
  have hd1 : 0 < (1 + fieldSat * L1 * E) * (1 + sieve * p * L1) :=
    migration_denom_pos L1 p E hp hE.le
  have hd2 : 0 < (1 + fieldSat * L2 * E) * (1 + sieve * p * L2) :=
    migration_denom_pos L2 p E hp hE.le
  have hcast : (L1 : ℚ) < (L2 : ℚ) := by exact_mod_cast hL
  have hfs : (0 : ℚ) < fieldSat := by
    unfold fieldSat
    norm_num
  have hsv : (0 : ℚ) < sieve := by
    unfold sieve
    norm_num
  have hf12 : 1 + fieldSat * L1 * E < 1 + fieldSat * L2 * E := by
    have h := mul_lt_mul_of_pos_right (mul_lt_mul_of_pos_left hcast hfs) hE
    linarith
  have hs12 : 1 + sieve * p * L1 ≤ 1 + sieve * p * L2 := by
    have h : sieve * p * L1 ≤ sieve * p * L2 :=
      mul_le_mul_of_nonneg_left hcast.le (by positivity)
    linarith
  have hdlt : (1 + fieldSat * L1 * E) * (1 + sieve * p * L1) <
      (1 + fieldSat * L2 * E) * (1 + sieve * p * L2) := by
    calc (1 + fieldSat * L1 * E) * (1 + sieve * p * L1)
        < (1 + fieldSat * L2 * E) * (1 + sieve * p * L1) :=
          mul_lt_mul_of_pos_right hf12 (sieveDenom_pos L1 p hp)
      _ ≤ (1 + fieldSat * L2 * E) * (1 + sieve * p * L2) :=
          mul_le_mul_of_nonneg_left hs12 (fieldDenom_pos L2 E hE.le).le
  have hrate : migration_rate L2 p E < migration_rate L1 p E := by
    unfold migration_rate
    exact div_lt_div_of_pos_left hnum hd1 hdlt
  refine ⟨hrate, ?_⟩
  unfold migration_distance
  exact mul_lt_mul_of_pos_right hrate ht

/-- C2 witness: a 1500 bp fragment migrates strictly faster than a
3000 bp fragment in a 1 % gel at 5 V/cm, and strictly farther after one
hour. -/
theorem migration_rate_strict_anti_length_witness :
    migration_rate 3000 1 5 < migration_rate 1500 1 5 ∧
    migration_distance 3000 1 5 1 < migration_distance 1500 1 5 1 :=
  migration_rate_strict_anti_length 1500 3000 1 5 1
    (by norm_num) (by norm_num) (by norm_num) (by norm_num)

/-- C3: at fixed fragment length and field strength, the migration rate
at the lower of two agarose concentrations is strictly greater. -/
theorem migration_rate_strict_anti_agarose (L : ℕ) (p1 p2 E : ℚ)
    (hL : 0 < L) (hp : p1 < p2) (hp1 : 0 ≤ p1) (hE : 0 < E) :
    migration_rate L p2 E < migration_rate L p1 E := by
  have hnum : 0 < mu0 * E := mul_pos mu0_pos hE
  have hd1 : 0 < (1 + fieldSat * L * E) * (1 + sieve * p1 * L) :=
    migration_denom_pos L p1 E hp1 hE.le
  have hcast : (0 : ℚ) < (L : ℚ) := by exact_mod_cast hL
  have hsv : (0 : ℚ) < sieve := by
    unfold sieve
    norm_num
  have hs12 : 1 + sieve * p1 * L < 1 + sieve * p2 * L := by
    have h := mul_lt_mul_of_pos_right (mul_lt_mul_of_pos_left hp hsv) hcast
    linarith
  have hdlt : (1 + fieldSat * L * E) * (1 + sieve * p1 * L) <
      (1 + fieldSat * L * E) * (1 + sieve * p2 * L) :=
    mul_lt_mul_of_pos_left hs12 (fieldDenom_pos L E hE.le)
  unfold migration_rate
  exact div_lt_div_of_pos_left hnum hd1 hdlt

/-- C3 witness: a 1000 bp fragment migrates strictly faster in a 0.5 %
gel than in a 1.3 % gel at 5 V/cm, the two concentrations exercised by
the notebook. -/
theorem migration_rate_strict_anti_agarose_witness :
    migration_rate 1000 (13 / 10) 5 < migration_rate 1000 (1 / 2) 5 :=
  migration_rate_strict_anti_agarose 1000 (1 / 2) (13 / 10) 5
    (by norm_num) (by norm_num) (by norm_num) (by norm_num)

lemma fractionAt_time_to_reach (g : GelConfig) (frac : ℚ)
    (hv : 0 < maxRate g) (hg : 0 < g.gel_len) :
    fractionAt g (time_to_reach g frac) = frac := by
  unfold fractionAt time_to_reach
  field_simp

/-- C1: with both stopping criteria supplied the run stops at whichever
bound is reached first in simulated elapsed time — at `till_time` when it
precedes the time needed to reach the `till_len` fraction (the migrated
fraction then still being below `till_len`), and at the `till_len`
fraction otherwise; with `till_time` absent the length fraction alone
governs, its default being 0.75. -/
theorem run_stops_at_first_bound (g : GelConfig) (p : RunParams) (T : ℚ)
    (hv : 0 < maxRate g) (hg : 0 < g.gel_len) :
    (p.till_time = some T → T < time_to_reach g p.till_len →
      stopTime g p = T ∧ fractionAt g (stopTime g p) < p.till_len) ∧
    (p.till_time = some T → time_to_reach g p.till_len ≤ T →
      stopTime g p = time_to_reach g p.till_len ∧
      fractionAt g (stopTime g p) = p.till_len) ∧
    (p.till_time = none →
      stopTime g p = time_to_reach g p.till_len ∧
      fractionAt g (stopTime g p) = p.till_len) ∧
    defaultRunParams.till_time = none ∧ defaultRunParams.till_len = 3 / 4 := by
  refine ⟨?_, ?_, ?_, rfl, rfl⟩
  · intro hT hlt
    have hstop : stopTime g p = T := by
      unfold stopTime
      rw [hT]
      exact min_eq_left hlt.le
    refine ⟨hstop, ?_⟩
    rw [hstop]
    have h := fractionAt_time_to_reach g p.till_len hv hg
    unfold fractionAt at h ⊢
    have hmono : maxRate g * T / g.gel_len <
        maxRate g * time_to_reach g p.till_len / g.gel_len := by
      apply div_lt_div_of_pos_right _ hg
      exact mul_lt_mul_of_pos_left hlt hv
    calc maxRate g * T / g.gel_len
        < maxRate g * time_to_reach g p.till_len / g.gel_len := hmono
      _ = p.till_len := h
  · intro hT hle
    have hstop : stopTime g p = time_to_reach g p.till_len := by
      unfold stopTime
      rw [hT]
      exact min_eq_right hle
    rw [hstop]
    exact ⟨rfl, fractionAt_time_to_reach g p.till_len hv hg⟩
  · intro hT
    have hstop : stopTime g p = time_to_reach g p.till_len := by
      unfold stopTime
      rw [hT]
    rw [hstop]
    exact ⟨rfl, fractionAt_time_to_reach g p.till_len hv hg⟩

/-- A one-lane, one-fragment gel (1000 bp, 100 ng, 1 % agarose, 5 V/cm,
15 cm gel) used to instantiate the run-control theorems. -/
def gelW : GelConfig :=
  { lanes := [[mkFragment 1000 100]]
    percentgel := 1
    electrfield := 5
    gel_len := 15 }

/-- Run parameters exercising both stopping criteria at once, as in the
notebook's `G.run(till_len=0.8, till_time=Q_(3, 'hr'))` cell. -/
def paramsW : RunParams :=
  { till_len := 4 / 5, till_time := some 3, exposure := 1 / 2 }

lemma maxRate_gelW_pos : 0 < maxRate gelW := by
  unfold maxRate gelW allFragments listMax fragmentRate migration_rate
  unfold mu0 fieldSat sieve mkFragment
  norm_num

/-- C1 witness: on the concrete one-fragment gel with `till_len = 0.8`
and `till_time = 3 h`, the length criterion is reached first and the run
stops exactly when the fragment has migrated 0.8 of the gel length. -/
theorem run_stops_at_first_bound_witness :
    stopTime gelW paramsW = time_to_reach gelW (4 / 5) ∧
    fractionAt gelW (stopTime gelW paramsW) = 4 / 5 := by
  have h := run_stops_at_first_bound gelW paramsW 3
    maxRate_gelW_pos (by norm_num [gelW])
  have h2 := h.2.1 rfl
  have hle : time_to_reach gelW ((4 : ℚ) / 5) ≤ 3 := by
    unfold time_to_reach maxRate gelW allFragments listMax fragmentRate migration_rate
    unfold mu0 fieldSat sieve mkFragment
    norm_num
  exact h2 hle

/-- C4: at exposure 0 every band's displayed curve is the raw, unclipped
Gaussian-shaped curve; at exposure 1 the saturation threshold is the
globally weakest peak, every band whose peak exceeds it is clipped to
that ceiling at its peak, and a band is left entirely unsaturated exactly
when its peak is the global minimum — so at most one band (the weakest,
when unique) remains unsaturated. -/
theorem exposure_saturation (g : GelConfig) (f : Fragment) (c : ℚ)
    (hf : f ∈ allFragments g) (hm : 0 ≤ massNg f) :
    (∀ x, clippedCurve g 0 f c x = bandCurve f c x) ∧
    saturationThreshold g 1 = listMin (allPeaks g) ∧
    (listMin (allPeaks g) < bandPeak f →
      clippedCurve g 1 f c c = listMin (allPeaks g) ∧
      clippedCurve g 1 f c c < bandPeak f) ∧
    (bandPeak f = listMin (allPeaks g) →
      ∀ x, clippedCurve g 1 f c x = bandCurve f c x) ∧
    ((∀ x, clippedCurve g 1 f c x = bandCurve f c x) →
      bandPeak f = listMin (allPeaks g)) := by
  have hthr : saturationThreshold g 1 = listMin (allPeaks g) := by
    unfold saturationThreshold
    ring
  refine ⟨fun x => clippedCurve_exposure_zero hf hm c x, hthr, ?_, ?_, ?_⟩
  · intro hlt
    have hclip : clippedCurve g 1 f c c = listMin (allPeaks g) := by
      unfold clippedCurve
      rw [hthr, bandCurve_center]
      exact min_eq_right hlt.le
    exact ⟨hclip, by rw [hclip]; exact hlt⟩
  · intro heq x
    unfold clippedCurve
    rw [hthr]
    exact min_eq_left ((bandCurve_le_peak hm c x).trans heq.le)
  · intro hall
    have hc := hall c
    unfold clippedCurve at hc
    rw [hthr, bandCurve_center] at hc
    have hle : bandPeak f ≤ listMin (allPeaks g) := by
      by_contra hgt
      push_neg at hgt
      rw [min_eq_right hgt.le] at hc
      exact absurd hc (ne_of_lt hgt)
    exact le_antisymm hle (listMin_le (bandPeak_mem_allPeaks hf))

/-- A two-fragment gel (one lane) with distinct band peaks, used to
instantiate the exposure theorem: 3000 bp at 100 ng and 1500 bp at
25 ng. -/
def gelX : GelConfig :=
  { lanes := [[mkFragment 3000 100, mkFragment 1500 25]]
    percentgel := 1
    electrfield := 5
    gel_len := 15 }

/-- The brighter fragment of `gelX`. -/
def fragBright : Fragment := mkFragment 3000 100

/-- C4 witness: on the concrete two-band gel, the bright band's curve is
untouched at exposure 0, and at exposure 1 it is clipped at its peak to
the weakest band's peak height. -/
theorem exposure_saturation_witness :
    (∀ x, clippedCurve gelX 0 fragBright 5 x = bandCurve fragBright 5 x) ∧
    clippedCurve gelX 1 fragBright 5 5 = listMin (allPeaks gelX) ∧
    clippedCurve gelX 1 fragBright 5 5 < bandPeak fragBright := by
  have hf : fragBright ∈ allFragments gelX := by
    unfold allFragments gelX fragBright
    simp
  have hm : 0 ≤ massNg fragBright := by
    unfold fragBright
    rw [massNg_mkFragment]
    norm_num
  have h := exposure_saturation gelX fragBright 5 hf hm
  have hlt : listMin (allPeaks gelX) < bandPeak fragBright := by
    unfold allPeaks allFragments gelX fragBright listMin
    simp only [List.flatten, List.append_nil, List.map_cons, List.map_nil,
      List.foldr]
    unfold bandPeak bandWidth widthBase widthPerBp
    rw [massNg_mkFragment, massNg_mkFragment]
    simp only [mkFragment]
    norm_num
  exact ⟨h.1, (h.2.2.1 hlt).1, (h.2.2.1 hlt).2⟩

lemma numericArea_eq_mass_mul_gridConst {g : GelConfig} {f : Fragment}
    (hf : f ∈ allFragments g) (hm : 0 ≤ massNg f) (c R : ℚ) {N : ℕ}
    (hN : 0 < N) :
    numericArea g 0 N R f c = massNg f * gridConst N R := by
  have hw : bandWidth f ≠ 0 := (bandWidth_pos f).ne.symm
  have hNQ : (N : ℚ) ≠ 0 := by
    exact_mod_cast hN.ne.symm
  unfold numericArea gridConst
  rw [Finset.mul_sum]
  apply Finset.sum_congr rfl
  intro i _
  rw [clippedCurve_exposure_zero hf hm]
  unfold bandCurve
  have harg : (c + ((i : ℚ) - N) * (R * bandWidth f / N) - c) / bandWidth f =
      ((i : ℚ) - N) * R / N := by
    field_simp
    ring
  rw [harg]
  unfold bandPeak
  field_simp
  ring

/-- C5: at exposure 0 the numerically integrated area under a band's
displayed curve equals the fragment's mass times one fixed grid constant,
the same for every fragment, band centre, and band width — so band area
is exactly proportional to mass (zero tolerance in the exact-rational
model), and the areas of any two fragments are in the ratio of their
masses. -/
theorem band_area_proportional_to_mass (g : GelConfig) (f1 f2 : Fragment)
    (c1 c2 R : ℚ) (N : ℕ)
    (hf1 : f1 ∈ allFragments g) (hm1 : 0 ≤ massNg f1)
    (hf2 : f2 ∈ allFragments g) (hm2 : 0 ≤ massNg f2) (hN : 0 < N) :
    numericArea g 0 N R f1 c1 = massNg f1 * gridConst N R ∧
    numericArea g 0 N R f2 c2 = massNg f2 * gridConst N R ∧
    numericArea g 0 N R f1 c1 * massNg f2 =
      numericArea g 0 N R f2 c2 * massNg f1 := by
  have h1 := numericArea_eq_mass_mul_gridConst hf1 hm1 c1 R hN
  have h2 := numericArea_eq_mass_mul_gridConst hf2 hm2 c2 R hN
  refine ⟨h1, h2, ?_⟩
  rw [h1, h2]
  ring

/-- The fainter fragment of `gelX`. -/
def fragFaint : Fragment := mkFragment 1500 25

/-- C5 witness: on the concrete two-band gel at exposure 0, both bands'
Riemann-sum areas (9 samples over ±4 widths) are their masses times the
one shared grid constant, so the areas are in the 100 : 25 ratio of the
masses. -/
theorem band_area_proportional_to_mass_witness :
    numericArea gelX 0 4 4 fragBright 5 = massNg fragBright * gridConst 4 4 ∧
    numericArea gelX 0 4 4 fragFaint 7 = massNg fragFaint * gridConst 4 4 ∧
    numericArea gelX 0 4 4 fragBright 5 * massNg fragFaint =
      numericArea gelX 0 4 4 fragFaint 7 * massNg fragBright := by
  have hf1 : fragBright ∈ allFragments gelX := by
    unfold allFragments gelX fragBright
    simp
  have hf2 : fragFaint ∈ allFragments gelX := by
    unfold allFragments gelX fragFaint
    simp
  have hm1 : 0 ≤ massNg fragBright := by
    unfold fragBright
    rw [massNg_mkFragment]
    norm_num
  have hm2 : 0 ≤ massNg fragFaint := by
    unfold fragFaint
    rw [massNg_mkFragment]
    norm_num
  exact band_area_proportional_to_mass gelX fragBright fragFaint 5 7 4 4
    hf1 hm1 hf2 hm2 (by norm_num)

lemma map_massNg_zipWith :
    ∀ (sizes : List ℕ) (qs : List ℚ), sizes.length = qs.length →
      (List.zipWith mkFragment sizes qs).map massNg = qs
  | [], [], _ => rfl
  | [], _ :: _, h => by simp at h
  | _ :: _, [], h => by simp at h
  | L :: sizes, m :: qs, h => by
    simp only [List.zipWith_cons_cons, List.map_cons, massNg_mkFragment]
    rw [map_massNg_zipWith sizes qs (by simpa using h)]

/-- C6: with one quantity per fragment, `gen_sample` succeeds and every
returned fragment's mass — re-derived from the stored molar amount
through the molecular-weight relationship — equals the corresponding
input quantity exactly (unitless quantities read as nanograms). -/
theorem gen_sample_each_roundtrip (sizes : List ℕ) (qs : List ℚ)
    (h : sizes.length = qs.length) :
    gen_sample sizes (.each qs) = .ok (List.zipWith mkFragment sizes qs) ∧
    (List.zipWith mkFragment sizes qs).map massNg = qs := by
  constructor
  · simp only [gen_sample]
    rw [if_pos h]
  · exact map_massNg_zipWith sizes qs h

/-- C6 witness: `gen_sample [3000, 1500] [100, 100]` yields two fragments
whose masses, re-derived from their molar amounts, are both exactly
100 ng, as the notebook records. -/
theorem gen_sample_each_roundtrip_witness :
    gen_sample [3000, 1500] (.each [100, 100]) =
      .ok [mkFragment 3000 100, mkFragment 1500 100] ∧
    (List.map massNg [mkFragment 3000 100, mkFragment 1500 100]) =
      [100, 100] := by
  have h := gen_sample_each_roundtrip [3000, 1500] [100, 100] (by simp)
  simpa using h

lemma totalBp_pos {sizes : List ℕ} (hne : sizes ≠ []) (hpos : ∀ L ∈ sizes, 0 < L) :
    0 < totalBp sizes := by
  unfold totalBp
  apply List.sum_pos
  · intro a ha
    rcases List.mem_map.mp ha with ⟨L, hL, rfl⟩
    exact_mod_cast hpos L hL
  · cases sizes with
    | nil => exact absurd rfl hne
    | cons a t => simp

/-- C7: with a single total mass, `gen_sample` distributes the mass over
the fragments in exact proportion to their lengths
(`massᵢ = total · Lᵢ / ΣL`), and the returned masses sum to the given
total exactly. -/
theorem gen_sample_total_distribution (sizes : List ℕ) (t : ℚ)
    (hne : sizes ≠ []) (hpos : ∀ L ∈ sizes, 0 < L) :
    gen_sample sizes (.total t) =
      .ok (sizes.map fun L => mkFragment L (t * L / totalBp sizes)) ∧
    ((sizes.map fun L => mkFragment L (t * L / totalBp sizes)).map massNg) =
      (sizes.map fun L : ℕ => t * (L : ℚ) / totalBp sizes) ∧
    ((sizes.map fun L => mkFragment L (t * L / totalBp sizes)).map massNg).sum = t := by
  have hS : 0 < totalBp sizes := totalBp_pos hne hpos
  have hmass : ((sizes.map fun L => mkFragment L (t * L / totalBp sizes)).map massNg) =
      (sizes.map fun L : ℕ => t * (L : ℚ) / totalBp sizes) := by
    rw [List.map_map]
    apply List.map_congr_left
    intro L _
    simp only [Function.comp]
    exact massNg_mkFragment L _
  refine ⟨rfl, hmass, ?_⟩
  rw [hmass]
  have hrw : (sizes.map fun L : ℕ => t * (L : ℚ) / totalBp sizes) =
      (sizes.map fun L => (t / totalBp sizes) * ((fun s : ℕ => (s : ℚ)) L)) := by
    apply List.map_congr_left
    intro L _
    ring
  rw [hrw, List.sum_map_mul_left]
  rw [show (sizes.map fun s : ℕ => (s : ℚ)).sum = totalBp sizes from rfl]
  rw [div_mul_cancel₀]
  exact hS.ne.symm

/-- C7 witness: `gen_sample [500, 1000, 5000]` with total 200 ng yields
masses 200/13, 400/13, 2000/13 ng — within 0.01 of the documented
15.38, 30.77, 153.85 ng — summing exactly to 200 ng. -/
theorem gen_sample_total_distribution_witness :
    ((gen_sample [500, 1000, 5000] (.total 200)).map fun s => s.map massNg) =
      .ok [200 / 13, 400 / 13, 2000 / 13] ∧
    ((200 : ℚ) / 13 + 400 / 13 + 2000 / 13 = 200) ∧
    |(200 : ℚ) / 13 - 1538 / 100| < 1 / 100 ∧
    |(400 : ℚ) / 13 - 3077 / 100| < 1 / 100 ∧
    |(2000 : ℚ) / 13 - 15385 / 100| < 1 / 100 := by
  have h := gen_sample_total_distribution [500, 1000, 5000] 200
    (by simp) (by intro L hL; fin_cases hL <;> norm_num)
  refine ⟨?_, by norm_num, ?_, ?_, ?_⟩
  · rw [h.1]
    simp only [Except.map]
    rw [h.2.1]
    norm_num [totalBp]
  · rw [abs_sub_lt_iff]
    constructor <;> norm_num
  · rw [abs_sub_lt_iff]
    constructor <;> norm_num
  · rw [abs_sub_lt_iff]
    constructor <;> norm_num

instance {ε α : Type} [DecidableEq ε] [DecidableEq α] : DecidableEq (Except ε α) :=
  fun x y =>
    match x, y with
    | .ok a, .ok b =>
      if h : a = b then isTrue (by rw [h]) else isFalse (fun hc => h (Except.ok.inj hc))
    | .ok _, .error _ => isFalse (fun hc => Except.noConfusion hc)
    | .error _, .ok _ => isFalse (fun hc => Except.noConfusion hc)
    | .error e, .error f =>
      if h : e = f then isTrue (by rw [h]) else isFalse (fun hc => h (Except.error.inj hc))

/-- C8: looking up `1kb_GeneRuler` with the default 500 ng total yields
the fixed 14-entry size table of that ladder in strictly descending
order, with per-band masses 3/50·500 = 30 ng … summing exactly to
500 ng, and an absent name fails with the NotFound error. -/
theorem weight_standard_sample_1kb :
    ((weight_standard_sample "1kb_GeneRuler" defaultLadderMass).map fun s =>
        s.map Fragment.length_bp) =
      .ok [10000, 8000, 6000, 5000, 4000, 3500, 3000, 2500, 2000, 1500,
           1000, 750, 500, 250] ∧
    ([10000, 8000, 6000, 5000, 4000, 3500, 3000, 2500, 2000, 1500,
      1000, 750, 500, 250] : List ℕ).length = 14 ∧
    List.Chain' (fun a b => b < a)
      [10000, 8000, 6000, 5000, 4000, 3500, 3000, 2500, 2000, 1500,
       1000, 750, 500, 250] ∧
    ((weight_standard_sample "1kb_GeneRuler" defaultLadderMass).map fun s =>
        s.map massNg) =
      .ok [30, 30, 70, 30, 30, 30, 70, 25, 25, 25, 60, 25, 25, 25] ∧
    ((weight_standard_sample "1kb_GeneRuler" defaultLadderMass).map fun s =>
        (s.map massNg).sum) =
      .ok 500 ∧
    weight_standard_sample "GeneRuler_1kb" defaultLadderMass = .error .notFound := by
  have hres : weight_standard_sample "1kb_GeneRuler" defaultLadderMass =
      .ok (List.zipWith (fun sz fr => mkFragment sz (fr * defaultLadderMass))
        [10000, 8000, 6000, 5000, 4000, 3500, 3000, 2500, 2000, 1500,
         1000, 750, 500, 250]
        [3/50, 3/50, 7/50, 3/50, 3/50, 3/50, 7/50, 1/20, 1/20,
         1/20, 3/25, 1/20, 1/20, 1/20]) := rfl
  have hmasses : (List.zipWith (fun sz fr => mkFragment sz (fr * defaultLadderMass))
      [10000, 8000, 6000, 5000, 4000, 3500, 3000, 2500, 2000, 1500,
       1000, 750, 500, 250]
      [3/50, 3/50, 7/50, 3/50, 3/50, 3/50, 7/50, 1/20, 1/20,
       1/20, 3/25, 1/20, 1/20, 1/20]).map massNg =
      [30, 30, 70, 30, 30, 30, 70, 25, 25, 25, 60, 25, 25, 25] := by
    simp only [List.zipWith, List.map, massNg_mkFragment]
    norm_num [defaultLadderMass]
  refine ⟨?_, by decide, by norm_num [List.chain'_cons, List.chain'_singleton],
    ?_, ?_, by decide⟩
  · rw [hres]
    simp only [Except.map]
    decide
  · rw [hres]
    simp only [Except.map]
    rw [hmasses]
  · rw [hres]
    simp only [Except.map]
    rw [hmasses]
    norm_num

/-- C10: the static weight-standard table holds exactly the four
GeneRuler ladder names, in the notebook's order, and looking up any name
outside this set finds nothing, so `weight_standard_sample` fails there
with the NotFound error for every total mass. -/
theorem weight_standards_key_set (name : String)
    (h : name ∉ (["Mix_GeneRuler", "1kb+_GeneRuler", "High_Range_GeneRuler",
      "1kb_GeneRuler"] : List String)) :
    weight_standards.map Prod.fst =
      ["Mix_GeneRuler", "1kb+_GeneRuler", "High_Range_GeneRuler", "1kb_GeneRuler"] ∧
    weight_standards.lookup name = none ∧
    ∀ t, weight_standard_sample name t = .error .notFound := by
  have h1 : ¬(name = "Mix_GeneRuler") := fun he => h (by rw [he]; simp)
  have h2 : ¬(name = "1kb+_GeneRuler") := fun he => h (by rw [he]; simp)
  have h3 : ¬(name = "High_Range_GeneRuler") := fun he => h (by rw [he]; simp)
  have h4 : ¬(name = "1kb_GeneRuler") := fun he => h (by rw [he]; simp)
  have hb1 : (name == "Mix_GeneRuler") = false := beq_eq_false_iff_ne.mpr h1
  have hb2 : (name == "1kb+_GeneRuler") = false := beq_eq_false_iff_ne.mpr h2
  have hb3 : (name == "High_Range_GeneRuler") = false := beq_eq_false_iff_ne.mpr h3
  have hb4 : (name == "1kb_GeneRuler") = false := beq_eq_false_iff_ne.mpr h4
  have hlook : weight_standards.lookup name = none := by
    simp [weight_standards, List.lookup, hb1, hb2, hb3, hb4]
  refine ⟨rfl, hlook, ?_⟩
  intro t
  unfold weight_standard_sample
  rw [hlook]

/-- C10 witness: the name `GeneRuler_1kb` (a transposition of a real key)
is outside the key set, finds no table entry, and fails with NotFound. -/
theorem weight_standards_key_set_witness :
    weight_standards.map Prod.fst =
      ["Mix_GeneRuler", "1kb+_GeneRuler", "High_Range_GeneRuler", "1kb_GeneRuler"] ∧
    weight_standards.lookup "GeneRuler_1kb" = none ∧
    ∀ t, weight_standard_sample "GeneRuler_1kb" t = .error .notFound :=
  weight_standards_key_set "GeneRuler_1kb" (by decide)

/-- C9: every precondition violation fails synchronously with its
specified error kind and no output is produced — exposure outside [0, 1],
`till_len` outside (0, 1], and a negative `till_time` each give
InvalidParameter, an empty lane set gives EmptyGel, a per-fragment
quantity count differing from the size count gives ShapeMismatch — and
when every precondition holds the run yields its complete output, so no
error is silently recovered. -/
theorem precondition_errors (g : GelConfig) (p : RunParams)
    (sizes : List ℕ) (qs : List ℚ) :
    (p.exposure < 0 ∨ 1 < p.exposure → run g p = .error .invalidParameter) ∧
    (0 ≤ p.exposure ∧ p.exposure ≤ 1 → p.till_len ≤ 0 ∨ 1 < p.till_len →
      run g p = .error .invalidParameter) ∧
    (∀ T, 0 ≤ p.exposure ∧ p.exposure ≤ 1 → 0 < p.till_len ∧ p.till_len ≤ 1 →
      p.till_time = some T → T < 0 → run g p = .error .invalidParameter) ∧
    (0 ≤ p.exposure ∧ p.exposure ≤ 1 → 0 < p.till_len ∧ p.till_len ≤ 1 →
      tillTimeNonneg p → allFragments g = [] → run g p = .error .emptyGel) ∧
    (sizes.length ≠ qs.length →
      gen_sample sizes (.each qs) = .error .shapeMismatch) ∧
    (0 ≤ p.exposure ∧ p.exposure ≤ 1 → 0 < p.till_len ∧ p.till_len ≤ 1 →
      tillTimeNonneg p → allFragments g ≠ [] →
      run g p = .ok { time := stopTime g p, distances := laneDistances g p }) := by
  refine ⟨?_, ?_, ?_, ?_, ?_, ?_⟩
  · intro hexp
    have hno : ¬(0 ≤ p.exposure ∧ p.exposure ≤ 1) := by
      rintro ⟨ha, hb⟩
      rcases hexp with hc | hc <;> linarith
    unfold run
    rw [if_neg hno]
  · intro hexp hlen
    have hno : ¬(0 < p.till_len ∧ p.till_len ≤ 1) := by
      rintro ⟨ha, hb⟩
      rcases hlen with hc | hc <;> linarith
    unfold run
    rw [if_pos hexp, if_neg hno]
  · intro T hexp hlen hT hneg
    unfold run
    rw [if_pos hexp, if_pos hlen, hT]
    simp only [if_pos hneg]
  · intro hexp hlen htt hempty
    unfold run
    rw [if_pos hexp, if_pos hlen]
    cases hsome : p.till_time with
    | none => simp only [if_pos hempty]
    | some T =>
      have hTnn : ¬(T < 0) := not_lt.mpr (htt T hsome)
      simp only [if_neg hTnn, if_pos hempty]
  · intro hne
    unfold gen_sample
    simp only [if_neg hne]
  · intro hexp hlen htt hne
    unfold run
    rw [if_pos hexp, if_pos hlen]
    cases hsome : p.till_time with
    | none => simp only [if_neg hne]
    | some T =>
      have hTnn : ¬(T < 0) := not_lt.mpr (htt T hsome)
      simp only [if_neg hTnn, if_neg hne]

/-- Parameters with the out-of-range exposure 1.5 of the claim. -/
def paramsExp : RunParams :=
  { till_len := 3 / 4, till_time := none, exposure := 3 / 2 }

/-- Parameters with the out-of-range `till_len = 0` of the claim. -/
def paramsLen : RunParams :=
  { till_len := 0, till_time := none, exposure := 1 / 2 }

/-- Parameters with a negative `till_time`. -/
def paramsTime : RunParams :=
  { till_len := 3 / 4, till_time := some (-1), exposure := 1 / 2 }

/-- A gel with no fragments loaded. -/
def gelEmpty : GelConfig :=
  { lanes := [], percentgel := 1, electrfield := 5, gel_len := 15 }

/-- C9 witness: on concrete inputs, exposure 1.5, `till_len` 0, and
`till_time` −1 each fail with InvalidParameter, the empty gel fails with
EmptyGel, and 2 sizes with 3 quantities fail with ShapeMismatch. -/
theorem precondition_errors_witness :
    run gelW paramsExp = .error .invalidParameter ∧
    run gelW paramsLen = .error .invalidParameter ∧
    run gelW paramsTime = .error .invalidParameter ∧
    run gelEmpty defaultRunParams = .error .emptyGel ∧
    gen_sample [3000, 1500] (.each [100, 100, 100]) = .error .shapeMismatch := by
  refine ⟨?_, ?_, ?_, ?_, ?_⟩
  · exact (precondition_errors gelW paramsExp [] []).1
      (Or.inr (by norm_num [paramsExp]))
  · exact (precondition_errors gelW paramsLen [] []).2.1
      (by norm_num [paramsLen]) (Or.inl (by norm_num [paramsLen]))
  · exact (precondition_errors gelW paramsTime [] []).2.2.1 (-1)
      (by norm_num [paramsTime]) (by norm_num [paramsTime]) rfl (by norm_num)
  · exact (precondition_errors gelEmpty defaultRunParams [] []).2.2.2.1
      (by norm_num [defaultRunParams]) (by norm_num [defaultRunParams])
      (fun T hT => by simp [defaultRunParams] at hT) rfl
  · exact (precondition_errors gelW defaultRunParams [3000, 1500]
      [100, 100, 100]).2.2.2.2.1 (by decide)

end Pydna
